import Mathlib

/-!
Verification of the IGC → KML/KMZ converter (`src/converter.py`).

The Python source is shallowly embedded: a text line is a `List Char`
(Python builtins such as `str.strip`, `int(...)`, slices and
`str.startswith` are modelled by explicit functions below), floats are
modelled by `ℚ`, and the ElementTree XML node is the inductive `Xml`.
-/

namespace IgcConv

/-- Model of Python `str.strip()` (whitespace from both ends). -/
def trimL (l : List Char) : List Char :=
  ((l.dropWhile Char.isWhitespace).reverse.dropWhile Char.isWhitespace).reverse

/-- `startsL pre l` models Python `l.startswith(pre)`. -/
def startsL : List Char → List Char → Bool
  | [], _ => true
  | _ :: _, [] => false
  | p :: ps, c :: cs => p == c && startsL ps cs

/-- `containsL needle hay` models Python `needle in hay` (substring test). -/
def containsL (needle : List Char) : List Char → Bool
  | [] => needle.isEmpty
  | c :: cs => startsL needle (c :: cs) || containsL needle cs

/-- Everything after the first `:` — models `line.split(":", 1)[1]`. -/
def afterColon : List Char → List Char
  | [] => []
  | ':' :: r => r
  | _ :: r => afterColon r

/-- Decimal value of an ASCII digit character. -/
def dv (c : Char) : ℕ := c.toNat - 48

/-- Digit run of Python `int`, with single underscores allowed between digits. -/
def pyIntDigits : ℕ → List Char → Option ℕ
  | acc, [] => some acc
  | _, ['_'] => none
  | acc, '_' :: c2 :: cs2 =>
    if c2.isDigit then pyIntDigits (acc * 10 + dv c2) cs2 else none
  | acc, c :: cs =>
    if c.isDigit then pyIntDigits (acc * 10 + dv c) cs else none

/-- Magnitude part of Python `int` (must start with a digit). -/
def pyIntMag : List Char → Option ℕ
  | [] => none
  | c :: cs => if c.isDigit then pyIntDigits (dv c) cs else none

/-- Model of Python `int(s)` on ASCII text: optional surrounding whitespace,
optional single sign, then digits (underscores permitted between digits);
anything else raises `ValueError`, modelled as `none`. -/
def pyToInt (l : List Char) : Option ℤ :=
  match trimL l with
  | '+' :: rest => (pyIntMag rest).map Int.ofNat
  | '-' :: rest => (pyIntMag rest).map fun n => -(n : ℤ)
  | t => (pyIntMag t).map Int.ofNat

/-- Python slice `l[a:b]` (for `0 ≤ a ≤ b`, the only uses here). -/
def slice (l : List Char) (a b : ℕ) : List Char :=
  (l.take b).drop a

/-- One decoded position fix: `(lat, lon, alt)` tuple of `parse_igc`. -/
structure Fix where
  lat : ℚ
  lon : ℚ
  alt : ℤ
deriving Repr, DecidableEq

/-- The `B`-record branch of `parse_igc`: returns the fix appended for this
line, or `none` when the line is skipped (wrong first character, too short,
validity ≠ 'A', or a field fails `int(...)`). -/
def lineFix (l : List Char) : Option Fix :=
  if l.head? = some 'B' ∧ 35 ≤ l.length then
    if l.getD 24 ' ' = 'A' then
      match pyToInt (slice l 7 9), pyToInt (slice l 9 14), pyToInt (slice l 15 18),
            pyToInt (slice l 18 23), pyToInt (slice l 30 35), pyToInt (slice l 25 30) with
      | some dlat, some mlat, some dlon, some mlon, some galt, some palt =>
        let lat0 : ℚ := (dlat : ℚ) + ((mlat : ℚ) / 1000) / 60
        let lon0 : ℚ := (dlon : ℚ) + ((mlon : ℚ) / 1000) / 60
        some { lat := if l.getD 14 ' ' = 'S' then -lat0 else lat0,
               lon := if l.getD 23 ' ' = 'W' then -lon0 else lon0,
               alt := if 0 < galt then galt else palt }
      | _, _, _, _, _, _ => none
    else none
  else none

/-- Gregorian leap-year test (as `datetime` uses). -/
def isLeap (y : ℕ) : Bool :=
  (y % 4 == 0 && y % 100 != 0) || y % 400 == 0

/-- Days in a month. -/
def daysInMonth (m y : ℕ) : ℕ :=
  if m = 2 then (if isLeap y then 29 else 28)
  else if m = 4 ∨ m = 6 ∨ m = 9 ∨ m = 11 then 30
  else 31

/-- Two-digit zero-padded decimal, as `strftime` `%m`/`%d` produce. -/
def pad2 (n : ℕ) : String :=
  if n < 10 then "0" ++ toString n else toString n

/-- Model of `datetime.strptime(ds, "%d%m%y").strftime("%Y-%m-%d")` on a
six-digit string: `%d`/`%m` must each match two digits (day 01–31, month
01–12, leftover characters are an error, so one-digit matches fail on a
six-digit input), `%y` maps 00–68 to 2000–2068 and 69–99 to 1969–1999, and
the day must exist in the month. -/
def ddmmyyToIso (ds : List Char) : Option String :=
  match ds with
  | [d1, d2, m1, m2, y1, y2] =>
    let dd := dv d1 * 10 + dv d2
    let mm := dv m1 * 10 + dv m2
    let yy := dv y1 * 10 + dv y2
    let yr := if yy ≤ 68 then 2000 + yy else 1900 + yy
    if 1 ≤ dd ∧ 1 ≤ mm ∧ mm ≤ 12 ∧ dd ≤ daysInMonth mm yr then
      some (toString yr ++ "-" ++ pad2 mm ++ "-" ++ pad2 dd)
    else none
  | _ => none

/-- Accumulated metadata and fixes of `parse_igc`. -/
structure IgcData where
  pilot : Option String
  date : Option String
  points : List Fix
deriving Repr, DecidableEq

/-- The `H`-record branch of `parse_igc`, updating pilot and date. -/
def lineMeta (st : IgcData) (l : List Char) : IgcData :=
  if l.head? = some 'H' then
    let up := l.map Char.toUpper
    let st1 :=
      if containsL ['P', 'L', 'T'] up && l.contains ':' then
        { st with pilot :=
            let p := trimL (afterColon l)
            if p.isEmpty then none else some (String.mk p) }
      else st
    if startsL "HFDTE".toList up || startsL "HPDTE".toList up then
      let ds := (l.drop 5).filter Char.isDigit
      if 6 ≤ ds.length then
        match ddmmyyToIso (ds.take 6) with
        | some d => { st1 with date := some d }
        | none => st1
      else st1
    else st1
  else st

/-- One iteration of the `for line in f` loop of `parse_igc`. -/
def lineStep (st : IgcData) (raw : List Char) : IgcData :=
  let l := trimL raw
  let st1 := lineMeta st l
  match lineFix l with
  | some f => { st1 with points := st1.points ++ [f] }
  | none => st1

/-- `parse_igc`, over the file's lines. -/
def parseIgc (lines : List (List Char)) : IgcData :=
  lines.foldl lineStep ⟨none, none, []⟩

example : (parseIgc ["HFDTE010116".toList]).date = some "2016-01-01" := by decide

example : (parseIgc ["hfdte010116".toList]).date = none := by decide

example : pyToInt "00120".toList = some 120 := by decide

example : pyToInt "0X000".toList = none := by decide

/-! ## XML model and the KML builder -/

/-- An ElementTree node: tag, attributes, text, children. -/
structure Xml where
  tag : String
  attrs : List (String × String)
  text : Option String
  children : List Xml

/-- Element constructor (`ET.Element` / `ET.SubElement` with optional text). -/
def el (tag : String) (attrs : List (String × String)) (text : Option String)
    (children : List Xml) : Xml :=
  ⟨tag, attrs, text, children⟩

/-- Left-pad with zeros to width `k`. -/
def padZeros (k : ℕ) (s : String) : String :=
  String.mk (List.replicate (k - s.length) '0') ++ s

/-- Model of Python `f"{x}"` for a float (here an exact rational): sign,
integer part, then the shortest exact decimal expansion of the fractional
part (`.0` when it is zero), matching `repr` of a float whose value has a
finite decimal expansion — the only values the concrete statements below
evaluate.  A non-decimal fraction falls back to a `num/den` rendering. -/
def fmtQ (q : ℚ) : String :=
  let sgn := if q.num < 0 then "-" else ""
  let n := q.num.natAbs
  let d := q.den
  let ip := n / d
  let r := n % d
  match (List.range 40).find? (fun k => (r * 10 ^ k) % d == 0) with
  | some 0 => sgn ++ toString ip ++ ".0"
  | some k => sgn ++ toString ip ++ "." ++ padZeros k (toString (r * 10 ^ k / d))
  | none => sgn ++ toString ip ++ "+" ++ toString r ++ "/" ++ toString d

/-- The `"{lon},{lat},{alt}"` coordinate triple of `build_kml`. -/
def tripleStr (f : Fix) : String :=
  fmtQ f.lon ++ "," ++ fmtQ f.lat ++ "," ++ toString f.alt

/-- A Takeoff/Landing point placemark of `build_kml`. -/
def pointPm (nm : String) (f : Fix) : Xml :=
  el "Placemark" [] none
    [el "name" [] (some nm) [],
     el "styleUrl" [] (some "#pinStyle") [],
     el "Point" [] none
       [el "altitudeMode" [] (some "absolute") [],
        el "coordinates" [] (some (tripleStr f)) []]]

/-- The `Pilot:`/`Date:` lines of the description (Python truthiness: `None`
and the empty string are both falsy). -/
def descParts (td : IgcData) : List String :=
  (match td.pilot with
   | some p => if p = "" then [] else ["Pilot: " ++ p]
   | none => []) ++
  (match td.date with
   | some d => if d = "" then [] else ["Date: " ++ d]
   | none => [])

/-- The optional `description` element of `build_kml`. -/
def descEls (td : IgcData) : List Xml :=
  if descParts td = [] then []
  else [el "description" [] (some (String.intercalate "\n" (descParts td))) []]

/-- The two fixed `Style` elements of `build_kml`. -/
def styleEls (colorKml : String) : List Xml :=
  [el "Style" [("id", "trackStyle")] none
     [el "LineStyle" [] none
        [el "color" [] (some colorKml) [], el "width" [] (some "3") []]],
   el "Style" [("id", "pinStyle")] none
     [el "IconStyle" [] none [el "scale" [] (some "1.0") []]]]

/-- The line-geometry track placemark of `build_kml`. -/
def trackPmEl (name : String) (points : List Fix) : Xml :=
  el "Placemark" [] none
    [el "name" [] (some name) [],
     el "styleUrl" [] (some "#trackStyle") [],
     el "LineString" [] none
       [el "altitudeMode" [] (some "absolute") [],
        el "extrude" [] (some "0") [],
        el "tessellate" [] (some "1") [],
        el "coordinates" [] (some (String.intercalate " " (points.map tripleStr))) []]]

/-- The optional Takeoff marker (`if points:` uses the first fix). -/
def takeoffEls (points : List Fix) : List Xml :=
  match points.head? with
  | some f => [pointPm "Takeoff" f]
  | none => []

/-- The optional Landing marker (`if len(points) > 1:` uses the last fix). -/
def landingEls (points : List Fix) : List Xml :=
  if 1 < points.length then
    match points.getLast? with
    | some f => [pointPm "Landing" f]
    | none => []
  else []

/-- `build_kml(track_data, name, color_kml)`. -/
def buildKml (td : IgcData) (name colorKml : String) : Xml :=
  el "kml" [("xmlns", "http://www.opengis.net/kml/2.2")] none
    [el "Document" [] none
      ([el "name" [] (some name) []] ++ descEls td ++ styleEls colorKml ++
        [trackPmEl name td.points] ++ takeoffEls td.points ++ landingEls td.points)]

/-- First child with the given tag (`Element.find`). -/
def findChild (x : Xml) (t : String) : Option Xml :=
  x.children.find? fun c => c.tag == t

/-- Text of the `coordinates` element of the first `Placemark`'s
`LineString`, inside the `Document` of a built KML tree. -/
def coordsText (k : Xml) : Option String :=
  (findChild k "Document").bind fun d =>
  (d.children.find? fun c => c.tag == "Placemark").bind fun pm =>
  (findChild pm "LineString").bind fun ls =>
  (findChild ls "coordinates").bind fun c => c.text

example : fmtQ (mkRat 45001 1000) = "45.001" := by decide

example : fmtQ (mkRat 7 1) = "7.0" := by decide

/-! ## Color allocator -/

/-- Python `int(x)` on a float: truncation toward zero. -/
def pyTrunc (x : ℚ) : ℤ :=
  if x < 0 then -((-x).floor) else x.floor

/-- `colorsys.hsv_to_rgb`, translated clause by clause. -/
def hsvToRgb (h s v : ℚ) : ℚ × ℚ × ℚ :=
  if s = 0 then (v, v, v)
  else
    let i0 := pyTrunc (h * 6)
    let f := h * 6 - (i0 : ℚ)
    let p := v * (1 - s)
    let q := v * (1 - s * f)
    let t := v * (1 - s * (1 - f))
    let i := i0 % 6
    if i = 0 then (v, t, p)
    else if i = 1 then (q, v, p)
    else if i = 2 then (p, v, t)
    else if i = 3 then (p, q, v)
    else if i = 4 then (t, p, v)
    else (v, p, q)

/-- Lowercase hex digit. -/
def hexChar (n : ℕ) : Char :=
  if n < 10 then Char.ofNat (48 + n) else Char.ofNat (87 + n)

/-- Two lowercase hex digits, model of `f"{n:02x}"` for `0 ≤ n < 256`. -/
def toHex2 (n : ℕ) : String :=
  String.mk [hexChar (n / 16 % 16), hexChar (n % 16)]

/-- One `#rrggbb` entry of `generate_colors`, at hue `i/n`. -/
def colorEntry (n i : ℕ) : String :=
  let c := hsvToRgb ((i : ℚ) / (n : ℚ)) 1 1
  "#" ++ toHex2 (pyTrunc (c.1 * 255)).toNat ++ toHex2 (pyTrunc (c.2.1 * 255)).toNat
    ++ toHex2 (pyTrunc (c.2.2 * 255)).toNat

/-- `generate_colors(n)`. -/
def generateColors (n : ℕ) : List String :=
  if n = 0 then [] else (List.range n).map fun i => colorEntry n i

/-! ## Single-file conversion and the flat batch loop -/

/-- `convert_file`: parse, fail on zero fixes, else build the KML document.
The first component models the written `doc.kml` tree (`none` = no output
file), the second the returned error message. -/
def convertFile (lines : List (List Char)) (name colorKml : String) :
    Option Xml × Option String :=
  let d := parseIgc lines
  if d.points = [] then (none, some "No valid GPS fixes found")
  else (some (buildKml d name colorKml), none)

/-- The per-file loop of the flat batch (`main`'s file flow): success tally,
`"<name>: <error>"` list, and the per-file outputs in order. -/
def batchConvert : List (String × List (List Char)) → String →
    ℕ × List String × List (Option Xml)
  | [], _ => (0, [], [])
  | f :: fs, c =>
    let r := convertFile f.2 f.1 c
    let rest := batchConvert fs c
    match r.2 with
    | some e => (rest.1, (f.1 ++ ": " ++ e) :: rest.2.1, r.1 :: rest.2.2)
    | none => (rest.1 + 1, rest.2.1, r.1 :: rest.2.2)

/-! ## Merger -/

/-- The KML 2.2 namespace URI. -/
def kmlNs : String := "http://www.opengis.net/kml/2.2"

/-- ElementTree namespace-qualified tag, `\x7bns\x7dlocal`. -/
def qual (t : String) : String := "\x7b" ++ kmlNs ++ "\x7d" ++ t

/-- Attribute lookup, `Element.get`. -/
def attr (x : Xml) (k : String) : Option String :=
  (x.attrs.find? fun p => p.1 == k).map fun p => p.2

/-- Attribute update, `Element.set`: replace in place or append. -/
def setAttr (x : Xml) (k v : String) : Xml :=
  if x.attrs.any fun p => p.1 == k then
    { x with attrs := x.attrs.map fun p => if p.1 == k then (k, v) else p }
  else
    { x with attrs := x.attrs ++ [(k, v)] }

/-- Model of Python `t.startswith("#")`. -/
def pyStartsHash (t : String) : Bool := startsL ['#'] t.toList

/-- Set the text of the first namespace-qualified `styleUrl` child (the one
`Element.find` returned and whose `.text` is assigned in place). -/
def setFirstSu (pfx t : String) : List Xml → List Xml
  | [] => []
  | c :: cs =>
    if c.tag == qual "styleUrl" then
      { c with text := some ("#" ++ pfx ++ t.drop 1) } :: cs
    else c :: setFirstSu pfx t cs

/-- Rewrite the first (namespace-qualified) `styleUrl` child of a Placemark
when its text starts with `#`, prefixing the reference. -/
def rewritePm (pfx : String) (pm : Xml) : Xml :=
  match pm.children.find? fun c => c.tag == qual "styleUrl" with
  | none => pm
  | some su =>
    match su.text with
    | some t =>
      if pyStartsHash t then
        { pm with children := setFirstSu pfx t pm.children }
      else pm
    | none => pm

/-- Locate the inner `Document`: namespace-qualified first, unqualified as a
fallback (`inner_root.find`). -/
def docOf (root : Xml) : Option Xml :=
  match root.children.find? fun c => c.tag == qual "Document" with
  | some d => some d
  | none => root.children.find? fun c => c.tag == "Document"

/-- Per-archive merge step: `none` models a skipped archive (the KMZ could
not be opened/parsed, or no `Document` was found); otherwise the list of
elements appended to the group's Folder: the namespace-qualified `Style`
children with prefixed ids, then the namespace-qualified `Placemark`
children with rewritten `styleUrl` references. -/
def processArchive (base : String) (tree : Option Xml) : Option (List Xml) :=
  match tree with
  | none => none
  | some root =>
    match docOf root with
    | none => none
    | some d =>
      let pfx := base ++ "_"
      let styles := (d.children.filter fun c => c.tag == qual "Style").map
        fun s => setAttr s "id" (pfx ++ (attr s "id").getD "")
      let pms := (d.children.filter fun c => c.tag == qual "Placemark").map
        fun pm => rewritePm pfx pm
      some (styles ++ pms)

/-- A KMZ archive given to the merger: basename (without extension) and its
parsed `doc.kml` tree, `none` when unreadable. -/
structure ArchiveFile where
  base : String
  tree : Option Xml

/-- Inner loop of `merge_kmz_folder` over one group's archives: children
accumulated into the group's Folder, and the `total_files` increment — note
the counter advances for every archive, skipped or not, as in the source. -/
def archiveLoop : List ArchiveFile → List Xml × ℕ
  | [] => ([], 0)
  | a :: as =>
    let r := archiveLoop as
    ((processArchive a.base a.tree).getD [] ++ r.1, r.2 + 1)

/-- Outer loop of `merge_kmz_folder` over the (sorted) groups: one Folder
element per group, plus the running archive count. -/
def mergeLoop : List (String × List ArchiveFile) → List Xml × ℕ
  | [] => ([], 0)
  | g :: gs =>
    let a := archiveLoop g.2
    let r := mergeLoop gs
    (el "Folder" [] none (el "name" [] (some g.1) [] :: a.1) :: r.1, a.2 + r.2)

/-- `merge_kmz_folder`: the combined KML tree and the reported count. -/
def mergeKmz (folderName : String) (groups : List (String × List ArchiveFile)) :
    Xml × ℕ :=
  let r := mergeLoop groups
  (el "kml" [("xmlns", kmlNs)] none
    [el "Document" [] none (el "name" [] (some folderName) [] :: r.1)], r.2)

/-! ## Helper lemmas about the fix decoder -/

/-- Computation rule for `lineFix` when every guard passes. -/
theorem lineFix_mk (l : List Char) (dlat mlat dlon mlon galt palt : ℤ)
    (hB : l.head? = some 'B') (hL : 35 ≤ l.length) (hA : l.getD 24 ' ' = 'A')
    (h1 : pyToInt (slice l 7 9) = some dlat)
    (h2 : pyToInt (slice l 9 14) = some mlat)
    (h3 : pyToInt (slice l 15 18) = some dlon)
    (h4 : pyToInt (slice l 18 23) = some mlon)
    (h5 : pyToInt (slice l 30 35) = some galt)
    (h6 : pyToInt (slice l 25 30) = some palt) :
    lineFix l = some
      { lat := if l.getD 14 ' ' = 'S' then -((dlat : ℚ) + ((mlat : ℚ) / 1000) / 60)
               else (dlat : ℚ) + ((mlat : ℚ) / 1000) / 60,
        lon := if l.getD 23 ' ' = 'W' then -((dlon : ℚ) + ((mlon : ℚ) / 1000) / 60)
               else (dlon : ℚ) + ((mlon : ℚ) / 1000) / 60,
        alt := if 0 < galt then galt else palt } := by
  unfold lineFix
  rw [if_pos (And.intro hB hL), if_pos hA, h1, h2, h3, h4, h5, h6]

/-- Inversion: a decoded fix determines successful field parses and the
computed coordinate formulas. -/
theorem lineFix_inv {l : List Char} {f : Fix} (h : lineFix l = some f) :
    ∃ dlat mlat dlon mlon galt palt : ℤ,
      pyToInt (slice l 7 9) = some dlat ∧ pyToInt (slice l 9 14) = some mlat ∧
      pyToInt (slice l 15 18) = some dlon ∧ pyToInt (slice l 18 23) = some mlon ∧
      pyToInt (slice l 30 35) = some galt ∧ pyToInt (slice l 25 30) = some palt ∧
      f.lat = (if l.getD 14 ' ' = 'S' then -((dlat : ℚ) + ((mlat : ℚ) / 1000) / 60)
               else (dlat : ℚ) + ((mlat : ℚ) / 1000) / 60) ∧
      f.lon = (if l.getD 23 ' ' = 'W' then -((dlon : ℚ) + ((mlon : ℚ) / 1000) / 60)
               else (dlon : ℚ) + ((mlon : ℚ) / 1000) / 60) ∧
      f.alt = (if 0 < galt then galt else palt) := by
  unfold lineFix at h
  split at h
  · split at h
    · split at h
      · rename_i dlat mlat dlon mlon galt palt e1 e2 e3 e4 e5 e6
        exact ⟨dlat, mlat, dlon, mlon, galt, palt, e1, e2, e3, e4, e5, e6, by
          cases h; exact ⟨rfl, rfl, rfl⟩⟩
      · exact absurd h (by simp)
    · exact absurd h (by simp)
  · exact absurd h (by simp)

/-- Sign and conditional range of a coordinate of the form
`if c then -m else m` with nonnegative magnitude `m`. -/
theorem axisFacts {c : Prop} [Decidable c] {m x bound : ℚ} (hm : 0 ≤ m)
    (hx : x = if c then -m else m) :
    (c → x ≤ 0) ∧ (¬c → 0 ≤ x) ∧ (m ≤ bound → -bound ≤ x ∧ x ≤ bound) := by
  by_cases hc : c
  · rw [hx, if_pos hc]
    exact ⟨fun _ => by linarith, fun h => absurd hc h,
      fun hb => ⟨by linarith, by linarith⟩⟩
  · rw [hx, if_neg hc]
    exact ⟨fun h => absurd h hc, fun _ => hm, fun hb => ⟨by linarith, hb⟩⟩

/-! ## Claim C1 -/

/-- Claim C1 as stated is false: the decoder performs no range check.  The
`B` record with latitude-degree field `99` (all fields numeric, validity
`A`) is decoded to a fix with latitude `99 ∉ [-90, 90]`; moreover a record
with hemisphere `S` and zero magnitude yields latitude `0`, which is not
negative although the hemisphere character is `'S'`. -/
theorem claim1_counterexample :
    (lineFix ("B0000009900000N00000000EA0000000100".toList)).map Fix.lat = some 99 ∧
    ¬((99 : ℚ) ≤ 90) ∧
    (lineFix ("B0000000000000S00000000WA0000000100".toList)).map Fix.lat = some 0 ∧
    ("B0000000000000S00000000WA0000000100".toList).getD 14 ' ' = 'S' ∧
    ¬((0 : ℚ) < 0) := by
  refine ⟨?_, by norm_num, ?_, by decide, by norm_num⟩
  · rw [lineFix_mk _ 99 0 0 0 100 0 (by decide) (by decide) (by decide) (by decide)
      (by decide) (by decide) (by decide) (by decide) (by decide)]
    rw [if_neg (by decide : ¬(("B0000009900000N00000000EA0000000100".toList).getD 14 ' ' = 'S'))]
    simp
  · rw [lineFix_mk _ 0 0 0 0 100 0 (by decide) (by decide) (by decide) (by decide)
      (by decide) (by decide) (by decide) (by decide) (by decide)]
    rw [if_pos (by decide : ("B0000000000000S00000000WA0000000100".toList).getD 14 ' ' = 'S')]
    simp

/-- Claim C1 (amended): for a decoded `B` record whose latitude/longitude
fields parse to nonnegative integers (as digit-only fields do), the
latitude is nonpositive when the hemisphere character is `'S'` and
nonnegative otherwise (longitude analogously with `'W'`), and the latitude
lies in `[-90, 90]` whenever the encoded magnitude `deg + (min/1000)/60` is
at most `90` (longitude in `[-180, 180]` when the magnitude is at most
`180`) — the decoder itself enforces no range bound. -/
theorem claim1_sign_range_amended (l : List Char) (f : Fix)
    (dlat mlat dlon mlon : ℤ) (h : lineFix l = some f)
    (h1 : pyToInt (slice l 7 9) = some dlat)
    (h2 : pyToInt (slice l 9 14) = some mlat)
    (h3 : pyToInt (slice l 15 18) = some dlon)
    (h4 : pyToInt (slice l 18 23) = some mlon)
    (hn1 : 0 ≤ dlat) (hn2 : 0 ≤ mlat) (hn3 : 0 ≤ dlon) (hn4 : 0 ≤ mlon) :
    ((l.getD 14 ' ' = 'S') → f.lat ≤ 0) ∧
    (¬(l.getD 14 ' ' = 'S') → 0 ≤ f.lat) ∧
    ((dlat : ℚ) + ((mlat : ℚ) / 1000) / 60 ≤ 90 → -90 ≤ f.lat ∧ f.lat ≤ 90) ∧
    ((l.getD 23 ' ' = 'W') → f.lon ≤ 0) ∧
    (¬(l.getD 23 ' ' = 'W') → 0 ≤ f.lon) ∧
    ((dlon : ℚ) + ((mlon : ℚ) / 1000) / 60 ≤ 180 → -180 ≤ f.lon ∧ f.lon ≤ 180) := by
  obtain ⟨a, b, c, d, g, p, e1, e2, e3, e4, e5, e6, hlat, hlon, halt⟩ := lineFix_inv h
  rw [h1] at e1; rw [h2] at e2; rw [h3] at e3; rw [h4] at e4
  injection e1 with e1; injection e2 with e2; injection e3 with e3; injection e4 with e4
  subst e1; subst e2; subst e3; subst e4
  have q1 : (0 : ℚ) ≤ (dlat : ℚ) := by exact_mod_cast hn1
  have q2 : (0 : ℚ) ≤ (mlat : ℚ) := by exact_mod_cast hn2
  have q3 : (0 : ℚ) ≤ (dlon : ℚ) := by exact_mod_cast hn3
  have q4 : (0 : ℚ) ≤ (mlon : ℚ) := by exact_mod_cast hn4
  have hmlat : (0 : ℚ) ≤ (dlat : ℚ) + ((mlat : ℚ) / 1000) / 60 := by
    have : (0 : ℚ) ≤ ((mlat : ℚ) / 1000) / 60 := by positivity
    linarith
  have hmlon : (0 : ℚ) ≤ (dlon : ℚ) + ((mlon : ℚ) / 1000) / 60 := by
    have : (0 : ℚ) ≤ ((mlon : ℚ) / 1000) / 60 := by positivity
    linarith
  obtain ⟨s1, s2, s3⟩ := axisFacts hmlat hlat
  obtain ⟨t1, t2, t3⟩ := axisFacts hmlon hlon
  exact ⟨s1, s2, s3, t1, t2, t3⟩

/-- Witness for `claim1_sign_range_amended` at the concrete record
`B0000004530000S00730000WA0000000500` (latitude 45°30.000′ S). -/
theorem claim1_witness :
    -90 ≤ -(((45 : ℤ) : ℚ) + ((((30000 : ℤ) : ℚ)) / 1000) / 60) ∧
    -(((45 : ℤ) : ℚ) + ((((30000 : ℤ) : ℚ)) / 1000) / 60) ≤ 90 := by
  have h := lineFix_mk ("B0000004530000S00730000WA0000000500".toList)
    45 30000 7 30000 500 0 (by decide) (by decide) (by decide) (by decide)
    (by decide) (by decide) (by decide) (by decide) (by decide)
  have c := (claim1_sign_range_amended _ _ 45 30000 7 30000 h
    (by decide) (by decide) (by decide) (by decide)
    (by decide) (by decide) (by decide) (by decide)).2.2.1 (by norm_num)
  rw [if_pos (by decide :
    ("B0000004530000S00730000WA0000000500".toList).getD 14 ' ' = 'S')] at c
  exact c

/-! ## Claim C2 -/

/-- Claim C2: for every decoded `B` record, the fix's altitude equals the
GPS altitude field (columns 31–35) when it is strictly positive, and the
pressure altitude field (columns 26–30) otherwise. -/
theorem claim2_altitude (l : List Char) (f : Fix) (galt palt : ℤ)
    (h : lineFix l = some f)
    (hg : pyToInt (slice l 30 35) = some galt)
    (hp : pyToInt (slice l 25 30) = some palt) :
    f.alt = if 0 < galt then galt else palt := by
  obtain ⟨a, b, c, d, g, p, _, _, _, _, e5, e6, _, _, halt⟩ := lineFix_inv h
  rw [hg] at e5; rw [hp] at e6
  injection e5 with e5; injection e6 with e6
  subst e5; subst e6
  exact halt

/-- Witness for `claim2_altitude`: GPS 0 with pressure 120 decodes to
altitude 120; GPS 340 decodes to 340 though the pressure field is 999. -/
theorem claim2_witness :
    (lineFix ("B0000004530000N00730000EA0012000000".toList)).map Fix.alt = some 120 ∧
    (lineFix ("B0000004530000N00730000EA0099900340".toList)).map Fix.alt = some 340 := by
  constructor
  · have h := lineFix_mk ("B0000004530000N00730000EA0012000000".toList)
      45 30000 7 30000 0 120 (by decide) (by decide) (by decide) (by decide)
      (by decide) (by decide) (by decide) (by decide) (by decide)
    have a := claim2_altitude _ _ 0 120 h (by decide) (by decide)
    rw [h, Option.map_some', a]
    decide
  · have h := lineFix_mk ("B0000004530000N00730000EA0099900340".toList)
      45 30000 7 30000 340 999 (by decide) (by decide) (by decide) (by decide)
      (by decide) (by decide) (by decide) (by decide) (by decide)
    have a := claim2_altitude _ _ 340 999 h (by decide) (by decide)
    rw [h, Option.map_some', a]
    decide

/-! ## Claim C5 -/

/-- A line whose stripped text starts with `B` but whose fix decode fails
leaves the parser state unchanged. -/
theorem lineStep_skip (st : IgcData) (raw : List Char)
    (hB : (trimL raw).head? = some 'B') (hf : lineFix (trimL raw) = none) :
    lineStep st raw = st := by
  simp [lineStep, lineMeta, hf, hB]

/-- Claim C5: the decoder is total over the file — a `B` line whose fix
fields fail to decode (non-numeric field, too-short line, ...) contributes
no fix and no metadata, raises no error, and every other line of the file
is processed exactly as if the bad line were absent. -/
theorem claim5_skip_malformed (pre post : List (List Char)) (raw : List Char)
    (hB : (trimL raw).head? = some 'B') (hf : lineFix (trimL raw) = none) :
    parseIgc (pre ++ raw :: post) = parseIgc (pre ++ post) := by
  unfold parseIgc
  rw [List.foldl_append, List.foldl_append, List.foldl_cons,
    lineStep_skip _ raw hB hf]

/-- Witness for `claim5_skip_malformed`: a `B` record with a non-numeric
minutes field (`X0000`) between a date header and a good fix. -/
theorem claim5_witness :
    parseIgc ["HFDTE010116".toList,
              "B00000045X0000N00000000EA0000000100".toList,
              "B0000004530000N00730000EA0000000500".toList] =
    parseIgc ["HFDTE010116".toList,
              "B0000004530000N00730000EA0000000500".toList] :=
  claim5_skip_malformed ["HFDTE010116".toList]
    ["B0000004530000N00730000EA0000000500".toList]
    ("B00000045X0000N00000000EA0000000100".toList) (by decide) (by decide)

/-! ## Claim C6 -/

/-- Claim C6 as stated is false for lowercase-`h` lines: the date branch is
nested inside the case-sensitive `line.startswith("H")` test, so
`hfdte010116` — which case-insensitively starts with `HFDTE` and carries
the well-formed digits `010116` — sets no date. -/
theorem claim6_counterexample :
    (parseIgc ["hfdte010116".toList]).date = none ∧
    ddmmyyToIso ("010116".toList) = some "2016-01-01" ∧
    startsL "HFDTE".toList (("hfdte010116".toList).map Char.toUpper) = true := by
  refine ⟨by decide, by decide, by decide⟩

/-- Claim C6 (amended): for every line starting with an uppercase `H` whose
uppercased text starts with `HFDTE` or `HPDTE`, the parser collects the
digit characters after the 5th character; with at least 6 digits collected,
the date becomes the ISO-8601 rendering of the first 6 read as `DDMMYY`
when they form a valid date, and is left unchanged (silently, with no
error) when they are malformed; with fewer than 6 digits it is also left
unchanged. -/
theorem claim6_date_amended (st : IgcData) (raw : List Char)
    (hH : (trimL raw).head? = some 'H')
    (hD : startsL "HFDTE".toList ((trimL raw).map Char.toUpper) = true ∨
          startsL "HPDTE".toList ((trimL raw).map Char.toUpper) = true) :
    (6 ≤ (((trimL raw).drop 5).filter Char.isDigit).length →
      (lineStep st raw).date =
        (ddmmyyToIso ((((trimL raw).drop 5).filter Char.isDigit).take 6)).or st.date) ∧
    ((((trimL raw).drop 5).filter Char.isDigit).length < 6 →
      (lineStep st raw).date = st.date) := by
  have hfix : lineFix (trimL raw) = none := by
    unfold lineFix
    rw [if_neg]
    intro hc
    rw [hH] at hc
    exact absurd hc.1 (by decide)
  simp only [lineStep, lineMeta, hfix, hH, reduceCtorEq, if_pos]
  constructor
  · intro hlen
    rw [if_pos (by simpa using hD), if_pos hlen]
    rcases hiso : ddmmyyToIso ((((trimL raw).drop 5).filter Char.isDigit).take 6) with _ | d
    · split
      · rename_i heq
        exact absurd heq (by simp)
      · split <;> rfl
    · split
      · rename_i d2 heq
        injection heq with heq2
        subst heq2
        rfl
      · rename_i heq
        exact absurd heq (by simp)
  · intro hlen
    rw [if_pos (by simpa using hD), if_neg (by omega)]
    split <;> rfl

/-- Witness for `claim6_date_amended`: `HFDTE311299` sets the date to
`1999-12-31`; malformed `HFDTE321399` (day 32, month 13) leaves the
previously seen date untouched. -/
theorem claim6_witness :
    (lineStep ⟨none, none, []⟩ ("HFDTE311299".toList)).date = some "1999-12-31" ∧
    (lineStep ⟨none, some "2001-02-03", []⟩ ("HFDTE321399".toList)).date =
      some "2001-02-03" := by
  constructor
  · have h := (claim6_date_amended ⟨none, none, []⟩ ("HFDTE311299".toList)
      (by decide) (Or.inl (by decide))).1 (by decide)
    rw [h]
    decide
  · have h := (claim6_date_amended ⟨none, some "2001-02-03", []⟩
      ("HFDTE321399".toList) (by decide) (Or.inl (by decide))).1 (by decide)
    rw [h]
    decide

/-! ## Structure of the built document -/

/-- Every element of `descEls` is a `description` element. -/
theorem descEls_tags (td : IgcData) : ∀ x ∈ descEls td, x.tag = "description" := by
  intro x hx
  unfold descEls at hx
  split at hx
  · simp at hx
  · simp at hx
    subst hx
    rfl

/-- Every Takeoff/Landing marker is a `pointPm`. -/
theorem markerEls_shape (points : List Fix) :
    ∀ x ∈ takeoffEls points ++ landingEls points, ∃ nm f, x = pointPm nm f := by
  intro x hx
  rcases List.mem_append.mp hx with hx | hx
  · unfold takeoffEls at hx
    split at hx
    · rename_i f _
      simp at hx
      exact ⟨"Takeoff", f, hx⟩
    · simp at hx
  · unfold landingEls at hx
    split at hx
    · split at hx
      · rename_i f _
        simp at hx
        exact ⟨"Landing", f, hx⟩
      · simp at hx
    · simp at hx

/-- Dropping a prefix on which a `find?` predicate is everywhere false. -/
theorem find?_append_none {p : Xml → Bool} {xs ys : List Xml}
    (h : ∀ x ∈ xs, p x = false) : (xs ++ ys).find? p = ys.find? p := by
  rw [List.find?_append, List.find?_eq_none.mpr fun x hx => by simp [h x hx]]
  rfl

/-! ## Claim C3 -/

/-- Claim C3: for every track, the line placemark's `coordinates` text is
the space-separated concatenation, in fix order, of `lon,lat,alt` triples
(longitude first); in particular the track with fixes `(45.0, 7.0, 1000)`
and `(45.001, 7.001, 1100)` yields exactly
`"7.0,45.0,1000 7.001,45.001,1100"`. -/
theorem claim3_coordinates :
    (∀ (td : IgcData) (name colorKml : String),
      coordsText (buildKml td name colorKml) =
        some (String.intercalate " " (td.points.map tripleStr))) ∧
    coordsText (buildKml ⟨none, none,
        [⟨mkRat 45 1, mkRat 7 1, 1000⟩, ⟨mkRat 45001 1000, mkRat 7001 1000, 1100⟩]⟩
      "t" "ff0000ff") = some "7.0,45.0,1000 7.001,45.001,1100" := by
  constructor
  · intro td name colorKml
    have hdesc : ∀ x ∈ descEls td, ((fun c => c.tag == "Placemark") x) = false := by
      intro x hx
      simp [descEls_tags td x hx]
    dsimp only [coordsText, findChild, buildKml, el]
    rw [List.find?_cons_of_pos _ (by rfl)]
    dsimp only [Option.bind]
    simp only [List.cons_append, List.nil_append]
    rw [List.find?_cons_of_neg _ (by simp)]
    simp only [List.append_assoc]
    rw [find?_append_none hdesc]
    dsimp only [styleEls, trackPmEl, el]
    simp only [List.cons_append, List.nil_append]
    rw [List.find?_cons_of_neg _ (by simp), List.find?_cons_of_neg _ (by simp),
        List.find?_cons_of_pos _ (by rfl)]
    rfl
  · decide

/-! ## Claim C10 -/

/-- Claim C10: every single-track document contains exactly two `Style`
elements, with ids `trackStyle` and `pinStyle`; the line placemark's
`styleUrl` is `#trackStyle` and every point (Takeoff/Landing) placemark's
`styleUrl` is `#pinStyle` — identical style identifiers across all
single-track outputs. -/
theorem claim10_styles (td : IgcData) (name colorKml : String) :
    ∃ d, findChild (buildKml td name colorKml) "Document" = some d ∧
      ((d.children.filter fun c => c.tag == "Style").map fun s => attr s "id") =
        [some "trackStyle", some "pinStyle"] ∧
      ((d.children.find? fun c => c.tag == "Placemark").bind fun pm =>
        (findChild pm "styleUrl").bind fun su => su.text) = some "#trackStyle" ∧
      ∀ pm ∈ d.children, pm.tag = "Placemark" → (findChild pm "Point").isSome →
        ((findChild pm "styleUrl").bind fun su => su.text) = some "#pinStyle" := by
  refine ⟨el "Document" [] none
      ([el "name" [] (some name) []] ++ descEls td ++ styleEls colorKml ++
        [trackPmEl name td.points] ++ takeoffEls td.points ++ landingEls td.points),
    by
      dsimp only [buildKml, findChild, el]
      rw [List.find?_cons_of_pos _ (by rfl)], ?_, ?_, ?_⟩
  · have hdesc : (descEls td).filter (fun c => c.tag == "Style") = [] := by
      rw [List.filter_eq_nil_iff]
      intro x hx
      simp [descEls_tags td x hx]
    dsimp only [el, styleEls, trackPmEl]
    simp only [List.cons_append, List.nil_append, List.append_assoc,
      List.filter_append, List.filter_cons, List.filter_nil]
    simp only [hdesc]
    simp [attr, el]
    refine ⟨fun a ha => ?_, fun a ha => ?_⟩
    · obtain ⟨nm, f, rfl⟩ :=
        markerEls_shape td.points a (List.mem_append_left _ ha)
      simp [pointPm, el]
    · obtain ⟨nm, f, rfl⟩ :=
        markerEls_shape td.points a (List.mem_append_right _ ha)
      simp [pointPm, el]
  · have hdesc : ∀ x ∈ descEls td, ((fun c => c.tag == "Placemark") x) = false := by
      intro x hx
      simp [descEls_tags td x hx]
    dsimp only [el]
    simp only [List.cons_append, List.nil_append, List.append_assoc]
    rw [List.find?_cons_of_neg _ (by simp), find?_append_none hdesc]
    dsimp only [styleEls, trackPmEl, el]
    simp only [List.cons_append, List.nil_append]
    rw [List.find?_cons_of_neg _ (by simp), List.find?_cons_of_neg _ (by simp),
        List.find?_cons_of_pos _ (by rfl)]
    rfl
  · intro pm hpm htag hpoint
    dsimp only [el, styleEls] at hpm
    simp only [List.cons_append, List.nil_append, List.append_assoc,
      List.mem_cons] at hpm
    rcases hpm with rfl | hpm
    · exact absurd htag (by simp [el])
    rcases List.mem_append.mp hpm with hx | hpm
    · exact absurd htag (by simp [descEls_tags td pm hx])
    rcases List.mem_cons.mp hpm with rfl | hpm
    · exact absurd htag (by simp [el])
    rcases List.mem_cons.mp hpm with rfl | hpm
    · exact absurd htag (by simp [el])
    rcases List.mem_cons.mp hpm with rfl | hpm
    · exact absurd hpoint (by simp [trackPmEl, el, findChild, List.find?])
    · obtain ⟨nm, f, rfl⟩ := markerEls_shape td.points pm hpm
      rfl

/-- Witness for `claim10_styles` on an empty track. -/
theorem claim10_witness :
    ((findChild (buildKml ⟨none, none, []⟩ "n" "c") "Document").map fun d =>
      (d.children.filter fun c => c.tag == "Style").map fun s => attr s "id") =
      some [some "trackStyle", some "pinStyle"] := by
  obtain ⟨d, hd, hstyles, _, _⟩ := claim10_styles ⟨none, none, []⟩ "n" "c"
  rw [hd, Option.map_some', hstyles]

/-! ## Claim C4 -/

/-- The batch's output column is the pointwise conversion of each file. -/
theorem batch_outs (fs : List (String × List (List Char))) (c : String) :
    (batchConvert fs c).2.2 = fs.map fun f => (convertFile f.2 f.1 c).1 := by
  induction fs with
  | nil => rfl
  | cons f fs ih =>
    cases h : (convertFile f.2 f.1 c).2 <;> simp [batchConvert, h, ih]

/-- The batch's error column collects exactly the per-file error strings. -/
theorem batch_errs (fs : List (String × List (List Char))) (c : String) :
    (batchConvert fs c).2.1 = fs.filterMap fun f =>
      match (convertFile f.2 f.1 c).2 with
      | some e => some (f.1 ++ ": " ++ e)
      | none => none := by
  induction fs with
  | nil => rfl
  | cons f fs ih =>
    cases h : (convertFile f.2 f.1 c).2 <;> simp [batchConvert, h, ih]

/-- Claim C4: a file whose parse yields zero fixes fails with the
no-valid-fixes error and writes no output, its error is tallied under the
file's name, and every file of the batch — including all the others — is
converted exactly as its own content dictates (failures are isolated). -/
theorem claim4_no_fixes (fs : List (String × List (List Char))) (c : String)
    (i : ℕ) (hi : i < fs.length) (hz : (parseIgc fs[i].2).points = []) :
    convertFile fs[i].2 fs[i].1 c = (none, some "No valid GPS fixes found") ∧
    (batchConvert fs c).2.2[i]? = some none ∧
    (fs[i].1 ++ ": " ++ "No valid GPS fixes found") ∈ (batchConvert fs c).2.1 ∧
    ∀ j (hj : j < fs.length),
      (batchConvert fs c).2.2[j]? = some (convertFile fs[j].2 fs[j].1 c).1 := by
  have hcf : convertFile fs[i].2 fs[i].1 c = (none, some "No valid GPS fixes found") := by
    unfold convertFile
    rw [if_pos hz]
  refine ⟨hcf, ?_, ?_, ?_⟩
  · rw [batch_outs, List.getElem?_map, List.getElem?_eq_getElem hi]
    simp [hcf]
  · rw [batch_errs]
    exact List.mem_filterMap.mpr ⟨fs[i], List.getElem_mem hi, by rw [hcf]⟩
  · intro j hj
    rw [batch_outs, List.getElem?_map, List.getElem?_eq_getElem hj]
    rfl

/-- Witness for `claim4_no_fixes`: a two-file batch where the second file
has no fix lines; its conversion fails and is reported, the first file's
entry is untouched. -/
theorem claim4_witness :
    (batchConvert [("good", ["B0000004530000N00730000EA0000000500".toList]),
                   ("bad", ["ANOFIX".toList])] "c").2.2[1]? = some none ∧
    ("bad" ++ ": " ++ "No valid GPS fixes found") ∈
      (batchConvert [("good", ["B0000004530000N00730000EA0000000500".toList]),
                     ("bad", ["ANOFIX".toList])] "c").2.1 := by
  have h := claim4_no_fixes
    [("good", ["B0000004530000N00730000EA0000000500".toList]),
     ("bad", ["ANOFIX".toList])] "c" 1 (by decide) (by decide)
  exact ⟨h.2.1, h.2.2.1⟩

/-! ## Claim C9 -/

/-- Claim C9: `generate_colors(0) = []`; for `n > 0` the call returns
exactly `n` colors, the `i`-th being the hex rendering of
`hsv_to_rgb(i/n, 1, 1)` with channels truncated (`int(c*255)`); the result
is a pure function of `n`, hues increase strictly with `i`, and for
`n > 1` the hues `i/n` are pairwise distinct. -/
theorem claim9_colors :
    generateColors 0 = [] ∧
    ∀ n, 0 < n →
      (generateColors n).length = n ∧
      (∀ i, i < n → (generateColors n)[i]? = some (colorEntry n i)) ∧
      (∀ i j, i < j → j < n → ((i : ℚ) / (n : ℚ) < (j : ℚ) / (n : ℚ))) ∧
      (∀ i j, i < n → j < n → (i : ℚ) / (n : ℚ) = (j : ℚ) / (n : ℚ) → i = j) := by
  refine ⟨rfl, fun n hn => ⟨?_, ?_, ?_, ?_⟩⟩
  · simp [generateColors, hn.ne']
  · intro i hi
    simp [generateColors, hn.ne', List.getElem?_range, hi]
  · intro i j hij hjn
    have hc : (0 : ℚ) < (n : ℚ) := by exact_mod_cast hn
    rw [div_lt_div_iff_of_pos_right hc]
    exact_mod_cast hij
  · intro i j hin hjn heq
    have hc : ((n : ℚ)) ≠ 0 := by
      have : (0 : ℚ) < (n : ℚ) := by exact_mod_cast hn
      exact this.ne'
    field_simp at heq
    exact heq

/-- Witness for `claim9_colors` at `n = 6`. -/
theorem claim9_witness :
    (generateColors 6).length = 6 ∧ (generateColors 6)[1]? = some (colorEntry 6 1) := by
  have h := claim9_colors.2 6 (by norm_num)
  exact ⟨h.1, h.2.1 1 (by norm_num)⟩

/-! ## Merger lemmas -/

/-- `find?` after an in-place replacement of the key's binding. -/
theorem find?_set (l : List (String × String)) (k v : String)
    (h : l.any (fun p => p.1 == k) = true) :
    (l.map fun p => if p.1 == k then (k, v) else p).find? (fun p => p.1 == k) =
      some (k, v) := by
  induction l with
  | nil => simp at h
  | cons a l ih =>
    by_cases ha : (a.1 == k) = true
    · simp only [List.map_cons, if_pos ha]
      exact List.find?_cons_of_pos _ (by simp)
    · have h2 : l.any (fun p => p.1 == k) = true := by
        rcases List.any_eq_true.mp h with ⟨p, hp, hpk⟩
        rcases List.mem_cons.mp hp with rfl | hp2
        · exact absurd hpk ha
        · exact List.any_eq_true.mpr ⟨p, hp2, hpk⟩
      simp only [List.map_cons, if_neg ha]
      rw [List.find?_cons_of_neg _ (by simpa using ha)]
      exact ih h2

/-- `Element.set` followed by `Element.get` on the same key. -/
theorem attr_setAttr (x : Xml) (k v : String) : attr (setAttr x k v) k = some v := by
  unfold attr setAttr
  by_cases h : x.attrs.any (fun p => p.1 == k) = true
  · simp only [if_pos h]
    rw [find?_set _ _ _ h]
    rfl
  · simp only [if_neg h]
    have h1 : x.attrs.find? (fun p => p.1 == k) = none :=
      List.find?_eq_none.mpr fun p hp hk =>
        h (List.any_eq_true.mpr ⟨p, hp, hk⟩)
    rw [List.find?_append, h1]
    simp [List.find?]

/-- `find?` after `setFirstSu` returns the modified first match. -/
theorem find?_setFirstSu (pfx t : String) (l : List Xml) (su : Xml)
    (h : l.find? (fun c => c.tag == qual "styleUrl") = some su) :
    (setFirstSu pfx t l).find? (fun c => c.tag == qual "styleUrl") =
      some { su with text := some ("#" ++ pfx ++ t.drop 1) } := by
  induction l with
  | nil => simp at h
  | cons c cs ih =>
    by_cases hc : (c.tag == qual "styleUrl") = true
    · rw [@List.find?_cons_of_pos _ (fun x => x.tag == qual "styleUrl") c cs hc] at h
      injection h with h
      subst h
      unfold setFirstSu
      rw [if_pos hc]
      exact @List.find?_cons_of_pos _ (fun x => x.tag == qual "styleUrl")
        { c with text := some ("#" ++ pfx ++ t.drop 1) } cs hc
    · rw [@List.find?_cons_of_neg _ (fun x => x.tag == qual "styleUrl") c cs hc] at h
      unfold setFirstSu
      rw [if_neg hc,
        @List.find?_cons_of_neg _ (fun x => x.tag == qual "styleUrl") c _ hc]
      exact ih h

/-- The rewritten Placemark's first `styleUrl` child carries the prefixed
reference. -/
theorem rewritePm_su (pfx : String) (pm su : Xml) (t : String)
    (hsu : pm.children.find? (fun c => c.tag == qual "styleUrl") = some su)
    (ht : su.text = some t) (hh : pyStartsHash t = true) :
    (rewritePm pfx pm).children.find? (fun c => c.tag == qual "styleUrl") =
      some { su with text := some ("#" ++ pfx ++ t.drop 1) } := by
  unfold rewritePm
  rw [hsu]
  dsimp only []
  rw [ht]
  dsimp only []
  rw [if_pos hh]
  exact find?_setFirstSu pfx t pm.children su hsu

/-- Computation rule for `processArchive` when the document is located. -/
theorem processArchive_eq (base : String) (root d : Xml)
    (hd : docOf root = some d) :
    processArchive base (some root) = some
      (((d.children.filter fun c => c.tag == qual "Style").map
          fun s => setAttr s "id" (base ++ "_" ++ (attr s "id").getD "")) ++
       ((d.children.filter fun c => c.tag == qual "Placemark").map
          fun pm => rewritePm (base ++ "_") pm)) := by
  unfold processArchive
  dsimp only []
  rw [hd]

/-- The Folder element built for a listed group is a child of the merged
document. -/
theorem folder_mem (groups : List (String × List ArchiveFile))
    (gname : String) (archives : List ArchiveFile)
    (hg : (gname, archives) ∈ groups) :
    el "Folder" [] none
        (el "name" [] (some gname) [] :: (archiveLoop archives).1) ∈
      (mergeLoop groups).1 := by
  induction groups with
  | nil => cases hg
  | cons g gs ih =>
    rcases List.mem_cons.mp hg with rfl | hg2
    · exact List.mem_cons.mpr (Or.inl rfl)
    · exact List.mem_cons.mpr (Or.inr (ih hg2))

/-- Whatever an archive contributes ends up in its group's accumulated
children. -/
theorem archive_out_mem (archives : List ArchiveFile) (a : ArchiveFile)
    (ha : a ∈ archives) (x : Xml)
    (hx : x ∈ (processArchive a.base a.tree).getD []) :
    x ∈ (archiveLoop archives).1 := by
  induction archives with
  | nil => cases ha
  | cons b bs ih =>
    rcases List.mem_cons.mp ha with rfl | ha2
    · exact List.mem_append.mpr (Or.inl hx)
    · exact List.mem_append.mpr (Or.inr (ih ha2))

/-! ## Claim C7 -/

/-- Claim C7 as stated is false for inner documents without the KML
namespace: the merger's `findall` is namespace-qualified, so a `Style`
child named plain `Style` (in a document located through the unqualified
fallback) is neither re-identified nor moved — the archive contributes
nothing, though its inner Document was found and has a `Style` child. -/
theorem claim7_counterexample :
    processArchive "a" (some (el "kml" [] none
      [el "Document" [] none [el "Style" [("id", "trackStyle")] none []]])) =
      some [] ∧
    docOf (el "kml" [] none
      [el "Document" [] none [el "Style" [("id", "trackStyle")] none []]]) =
      some (el "Document" [] none [el "Style" [("id", "trackStyle")] none []]) ∧
    (mergeKmz "m" [("g", [⟨"a", some (el "kml" [] none
        [el "Document" [] none [el "Style" [("id", "trackStyle")] none []]])⟩])]).1 =
      el "kml" [("xmlns", kmlNs)] none
        [el "Document" [] none
          [el "name" [] (some "m") [],
           el "Folder" [] none [el "name" [] (some "g") []]]] := by
  refine ⟨rfl, rfl, rfl⟩

/-- Claim C7 (amended): during a merge, for every *namespace-qualified*
(`\x7bkml-ns\x7dStyle`) Style child of an archive's located inner Document
the merger emits a copy whose id is `<basename>_` followed by the original
id (a missing id contributes the empty string), and every
namespace-qualified Placemark child is emitted with its first qualified
`styleUrl`'s text, when it begins with `#`, rewritten to
`#<basename>_<original reference>`; all emitted elements are placed into
the group's Folder of the merged document.  Children without the namespace
qualification are not copied. -/
theorem claim7_merge_amended (folderName gname : String)
    (groups : List (String × List ArchiveFile)) (archives : List ArchiveFile)
    (a : ArchiveFile) (root d : Xml) (out : List Xml)
    (hg : (gname, archives) ∈ groups) (ha : a ∈ archives)
    (ht : a.tree = some root) (hd : docOf root = some d)
    (hout : processArchive a.base a.tree = some out) :
    (∀ s ∈ d.children, s.tag = qual "Style" →
      setAttr s "id" (a.base ++ "_" ++ (attr s "id").getD "") ∈ out ∧
      attr (setAttr s "id" (a.base ++ "_" ++ (attr s "id").getD "")) "id" =
        some (a.base ++ "_" ++ (attr s "id").getD "")) ∧
    (∀ pm ∈ d.children, pm.tag = qual "Placemark" →
      rewritePm (a.base ++ "_") pm ∈ out ∧
      ∀ (su : Xml) (t : String),
        pm.children.find? (fun c => c.tag == qual "styleUrl") = some su →
        su.text = some t → pyStartsHash t = true →
        (rewritePm (a.base ++ "_") pm).children.find?
            (fun c => c.tag == qual "styleUrl") =
          some { su with text := some ("#" ++ (a.base ++ "_") ++ t.drop 1) }) ∧
    findChild (mergeKmz folderName groups).1 "Document" =
      some (el "Document" [] none
        (el "name" [] (some folderName) [] :: (mergeLoop groups).1)) ∧
    (∀ x ∈ out, ∃ folderEl ∈ (mergeLoop groups).1,
      folderEl.tag = "Folder" ∧
      findChild folderEl "name" = some (el "name" [] (some gname) []) ∧
      x ∈ folderEl.children) := by
  rw [ht, processArchive_eq a.base root d hd] at hout
  injection hout with hout
  subst hout
  refine ⟨?_, ?_, ?_, ?_⟩
  · intro s hs htag
    refine ⟨List.mem_append.mpr (Or.inl ?_), attr_setAttr _ _ _⟩
    exact List.mem_map.mpr ⟨s, List.mem_filter.mpr ⟨hs, by simp [htag]⟩, rfl⟩
  · intro pm hpm htag
    refine ⟨List.mem_append.mpr (Or.inr ?_), ?_⟩
    · exact List.mem_map.mpr ⟨pm, List.mem_filter.mpr ⟨hpm, by simp [htag]⟩, rfl⟩
    · intro su t hsu hst hh
      have h2 := rewritePm_su (a.base ++ "_") pm su t hsu hst hh
      simpa using h2
  · dsimp only [mergeKmz, el, findChild]
    exact @List.find?_cons_of_pos Xml (fun c => c.tag == "Document") _ [] (by rfl)
  · intro x hx
    refine ⟨el "Folder" [] none
        (el "name" [] (some gname) [] :: (archiveLoop archives).1),
      folder_mem groups gname archives hg, rfl, ?_, ?_⟩
    · exact @List.find?_cons_of_pos Xml (fun c => c.tag == "name") _ _ (by rfl)
    · refine List.mem_cons.mpr (Or.inr ?_)
      refine archive_out_mem archives a ha x ?_
      rw [ht, processArchive_eq a.base root d hd]
      exact hx

/-- A sample namespace-qualified inner Document with one Style and one
Placemark, used only to exercise the merger. -/
def demoDoc : Xml :=
  el (qual "Document") [] none
    [el (qual "Style") [("id", "trackStyle")] none [],
     el (qual "Placemark") [] none
       [el (qual "styleUrl") [] (some "#trackStyle") []]]

/-- The sample archive root wrapping `demoDoc`. -/
def demoRoot : Xml := el "kml" [] none [demoDoc]

/-- The sample archive file named `a`. -/
def demoArch : ArchiveFile := ⟨"a", some demoRoot⟩

/-- Witness for `claim7_merge_amended`: one group `g` with one archive `a`
whose qualified Document holds a qualified `Style` with id `trackStyle`;
the merger emits it with id `a_trackStyle`. -/
theorem claim7_witness :
    setAttr (el (qual "Style") [("id", "trackStyle")] none []) "id"
        ("a" ++ "_" ++ "trackStyle") ∈
      (processArchive "a" (some demoRoot)).getD [] ∧
    attr (setAttr (el (qual "Style") [("id", "trackStyle")] none []) "id"
        ("a" ++ "_" ++ "trackStyle")) "id" = some ("a" ++ "_" ++ "trackStyle") := by
  have hpa : processArchive "a" (some demoRoot) = some
      [el (qual "Style") [("id", "a_trackStyle")] none [],
       el (qual "Placemark") [] none
         [el (qual "styleUrl") [] (some "#a_trackStyle") []]] := rfl
  have h := (claim7_merge_amended "m" "g" [("g", [demoArch])] [demoArch]
      demoArch demoRoot demoDoc _
      (by simp) (by simp) rfl rfl hpa).1
      (el (qual "Style") [("id", "trackStyle")] none [])
      (by simp [demoDoc, el]) rfl
  rw [hpa]
  exact h

/-! ## Claim C8 -/

/-- Claim C8 as stated is false: `total_files` is incremented before the
archive is opened, so a group with one unreadable archive (skipped, nothing
merged) still reports a count of 1. -/
theorem claim8_counterexample :
    (mergeKmz "m" [("g", [⟨"a", none⟩])]).2 = 1 ∧
    processArchive "a" none = none ∧
    (mergeKmz "m" [("g", [⟨"a", none⟩])]).1 =
      el "kml" [("xmlns", kmlNs)] none
        [el "Document" [] none
          [el "name" [] (some "m") [],
           el "Folder" [] none [el "name" [] (some "g") []]]] := by
  refine ⟨rfl, rfl, rfl⟩

/-- Claim C8 (amended): the count the merger reports equals the total
number of archives listed across all groups — every archive is counted
before reading is attempted, so skipped archives (unopenable, or no inner
Document) are included; skipping never aborts the merge, which still
builds one Folder per group. -/
theorem claim8_count_amended (folderName : String)
    (groups : List (String × List ArchiveFile)) :
    (mergeKmz folderName groups).2 = (groups.map fun g => g.2.length).sum ∧
    (mergeKmz folderName groups).1.children =
      [el "Document" [] none
        (el "name" [] (some folderName) [] :: (mergeLoop groups).1)] ∧
    (mergeLoop groups).1.length = groups.length := by
  refine ⟨?_, rfl, ?_⟩
  · have harch : ∀ as : List ArchiveFile, (archiveLoop as).2 = as.length := by
      intro as
      induction as with
      | nil => rfl
      | cons b bs ih => simp [archiveLoop, ih]
    induction groups with
    | nil => rfl
    | cons g gs ih =>
      simp [mergeKmz, mergeLoop, harch g.2] at ih ⊢
      omega
  · induction groups with
    | nil => rfl
    | cons g gs ih => simp [mergeLoop, ih]

end IgcConv
